import Mathlib

/-!
Verification development for the meta-project plugin library (`src/lib.rs`).

The Rust library is embedded shallowly:

* JSON documents (`serde_json::Value`) become the inductive `Json`.
* The outcome of `std::fs::read_to_string` followed by `serde_json::from_str`
  is abstracted by `FileRead`: the file is unreadable, its text is not valid
  JSON, or it parses to a `Json` document.  Parsed JSON objects are carried as
  association lists in document order (serde guarantees distinct keys after
  parsing; theorems that need this take a `Nodup` hypothesis).
* `std::collections::HashMap<String, String>` is modelled by the list of its
  entries (built with last-wins `hashInsert`, mirroring `HashMap::insert`)
  together with an environment-supplied iteration function `Env.hashIter`.
  The real map's iteration order is arbitrary (it depends on a per-process
  random hash seed), so any permutation of the entries is a legal iteration:
  theorems about the code quantify over every `hashIter` that permutes its
  input (`Env.HashOk`), and no theorem may assume a particular order.
* The filesystem (`Path::exists`, `Path::is_dir`), the external tree walker
  `meta_cli::config::walk_meta_tree`, the `git config` shell-out and the
  `serde_json::to_string_pretty` serializer are all environment functions in
  `Env`; `Path::join` on the relative names used by the code is string
  concatenation with a slash.
* Side effects that do not feed the returned value (the `print_missing`
  progress lines, `println!`) are dropped: the embedding captures the
  `CommandResult` value returned to `main.rs`.
* `std::env::current_dir()` is assumed to succeed; its result is the `cwd`
  argument of the embedded functions.
-/

/-- JSON values as produced by serde_json; objects keep document order. -/
inductive Json where
  | null : Json
  | bool (b : Bool) : Json
  | num (n : Int) : Json
  | str (s : String) : Json
  | arr (xs : List Json) : Json
  | obj (kvs : List (String × Json)) : Json

/-- Rust `Value::as_str`. -/
def Json.asStr : Json → Option String
  | .str s => some s
  | _ => none

/-- Rust `Value::as_object`, returning the entry list of an object. -/
def Json.asObject : Json → Option (List (String × Json))
  | .obj kvs => some kvs
  | _ => none

/-- Rust `value[key]` on `serde_json::Value`: the value stored under `key`
when the receiver is an object containing it, and `Null` otherwise. -/
def Json.index (j : Json) (key : String) : Json :=
  match j with
  | .obj kvs =>
      match kvs.find? (fun p => p.1 == key) with
      | some p => p.2
      | none => .null
  | _ => .null

/-- Outcome of reading and JSON-decoding a file: the two error sources of
`parse_meta_projects` (`std::fs::read_to_string` and `serde_json::from_str`)
followed by the decoded document. -/
inductive FileRead where
  | unreadable : FileRead
  | badJson : FileRead
  | doc (j : Json) : FileRead

/-- The three failure modes of `parse_meta_projects` (all surfaced through
`anyhow`): an io error from the read, a serde decode error, and the
`No 'projects' key in .meta` error. -/
inductive MetaError where
  | ioErr : MetaError
  | jsonErr : MetaError
  | noProjectsKey : MetaError
deriving DecidableEq

/-- Rust `HashMap::insert`: replaces the value of an existing key, otherwise
adds the entry.  The list records the entry set; iteration order is supplied
separately by `Env.hashIter`. -/
def hashInsert (m : List (String × String)) (k v : String) : List (String × String) :=
  if m.any (fun p => p.1 == k) then
    m.map (fun p => if p.1 == k then (k, v) else p)
  else
    m ++ [(k, v)]

/-- The loop of `parse_meta_projects`: insert every entry of the `projects`
object whose value is a plain string into the map, skipping the rest. -/
def buildProjects (kvs : List (String × Json)) : List (String × String) :=
  kvs.foldl
    (fun m p =>
      match p.2.asStr with
      | some url => hashInsert m p.1 url
      | none => m)
    []

/-- Embeds `parse_meta_projects` (src/lib.rs:380-393): read the file, decode
it as JSON, require `value["projects"]` to be an object, and collect the
string-valued entries. -/
def parse_meta_projects (r : FileRead) : Except MetaError (List (String × String)) :=
  match r with
  | .unreadable => .error .ioErr
  | .badJson => .error .jsonErr
  | .doc j =>
      match (j.index "projects").asObject with
      | none => .error .noProjectsKey
      | some kvs => .ok (buildProjects kvs)

/-- Message text attached to each `MetaError` when `execute_command` formats
it with `Failed to parse .meta: {e}`; the io and serde messages are
system-dependent and are modelled by fixed representative strings. -/
def metaErrMsg : MetaError → String
  | .ioErr => "io error"
  | .jsonErr => "invalid json"
  | .noProjectsKey => "No 'projects' key in .meta"

/-- Rust `Path::join` for the relative child names the library joins onto a
base directory. -/
def joinPath (base child : String) : String :=
  base ++ "/" ++ child

/-- Project info carried by `meta_cli::config::MetaTreeNode` (external crate;
only its shape is needed here). -/
structure MetaProjectInfo where
  name : String
  path : String
  repo : String
  tags : List String

/-- A resolved node of `meta_cli::config::walk_meta_tree` (external crate). -/
inductive MetaTreeNode where
  | mk (info : MetaProjectInfo) (is_meta : Bool) (children : List MetaTreeNode)

def MetaTreeNode.info : MetaTreeNode → MetaProjectInfo
  | .mk i _ _ => i

def MetaTreeNode.is_meta : MetaTreeNode → Bool
  | .mk _ m _ => m

def MetaTreeNode.children : MetaTreeNode → List MetaTreeNode
  | .mk _ _ c => c

/-- The `ProjectTreeNode` struct of src/lib.rs. -/
inductive ProjectTreeNode where
  | mk (name path repo : String) (tags : List String) (is_meta : Bool)
      (projects : List ProjectTreeNode)

def ProjectTreeNode.name : ProjectTreeNode → String
  | .mk n _ _ _ _ _ => n

def ProjectTreeNode.path : ProjectTreeNode → String
  | .mk _ p _ _ _ _ => p

def ProjectTreeNode.repo : ProjectTreeNode → String
  | .mk _ _ r _ _ _ => r

def ProjectTreeNode.tags : ProjectTreeNode → List String
  | .mk _ _ _ t _ _ => t

def ProjectTreeNode.is_meta : ProjectTreeNode → Bool
  | .mk _ _ _ _ m _ => m

def ProjectTreeNode.projects : ProjectTreeNode → List ProjectTreeNode
  | .mk _ _ _ _ _ ps => ps

/-- The `ProjectListOutput` struct of src/lib.rs (the `--json` payload). -/
structure ProjectListOutput where
  path : String
  repo : String
  projects : List ProjectTreeNode

/-- The `PlannedCommand` struct of src/lib.rs. -/
structure PlannedCommand where
  dir : String
  cmd : String
deriving DecidableEq

/-- The `CommandResult` enum of src/lib.rs. -/
inductive CommandResult where
  | Plan (commands : List PlannedCommand) (parallel : Option Bool)
  | Message (msg : String)
  | Error (msg : String)
deriving DecidableEq

/-- The `ExecuteOptions` struct of src/lib.rs. -/
structure ExecuteOptions where
  dry_run : Bool := false
  json_output : Bool := false
  recursive : Bool := false
  depth : Option Nat := none
  verbose : Bool := false
deriving DecidableEq

/-- The external world `execute_command` touches: filesystem queries, the
read-and-decode of a manifest file, the iteration order of a
`std::collections::HashMap`, the external tree walker, the `git config`
shell-out, and the pretty JSON serializer. -/
structure Env where
  pathExists : String → Bool
  readFile : String → FileRead
  isDir : String → Bool
  hashIter : List (String × String) → List (String × String)
  walk : String → Option Nat → Except String (List MetaTreeNode)
  gitRemote : String → Option String
  toPretty : ProjectListOutput → Except String String

/-- Legality of the modelled hash-map iteration: `HashMap::iter` yields every
entry exactly once, in some arbitrary order. -/
def Env.HashOk (env : Env) : Prop :=
  ∀ l : List (String × String), (env.hashIter l).Perm l

/-- Embeds `find_missing_projects` (src/lib.rs:395-404): iterate the map and
keep every project whose directory under `base_dir` is absent. -/
def find_missing_projects (projects : List (String × String)) (env : Env)
    (base_dir : String) : List (String × String) :=
  (env.hashIter projects).filter (fun p => !(env.isDir (joinPath base_dir p.1)))

/-- The clone command built for one missing project in the sync branches of
src/lib.rs (lines 163-172 and 244-253): `dir` is `"."` and the command names
the URL and the target directory `cwd.join(name)`. -/
def buildClone (cwd : String) (p : String × String) : PlannedCommand :=
  { dir := ".", cmd := "git clone " ++ p.2 ++ " " ++ joinPath cwd p.1 }

/-- Embeds `to_project_tree_node` (src/lib.rs:299-308). -/
def to_project_tree_node : MetaTreeNode → ProjectTreeNode
  | .mk info m children =>
      .mk info.name info.path info.repo info.tags m
        (children.attach.map (fun c => to_project_tree_node c.1))
decreasing_by
  have := List.sizeOf_lt_of_mem c.2
  simp only [MetaTreeNode.mk.sizeOf_spec]
  omega

/-- Embeds `format_project_tree` (src/lib.rs:326-355), returning the text the
Rust function appends to `output`. -/
def format_project_tree : List ProjectTreeNode → String → String
  | [], _ => ""
  | .mk name path _repo tags _im projects :: rest, pfx =>
      let is_last := rest.isEmpty
      let connector := if is_last then "└── " else "├── "
      let tags_str := if tags.isEmpty then "" else " [" ++ String.intercalate ", " tags ++ "]"
      let line := pfx ++ connector ++ name ++ " (" ++ path ++ ")" ++ tags_str ++ "\n"
      let childPart :=
        if projects.isEmpty then ""
        else
          let child_pfx := if is_last then pfx ++ "    " else pfx ++ "│   "
          format_project_tree projects child_pfx
      line ++ childPart ++ format_project_tree rest pfx

/-- Rust `String::pop` (drops the final character). -/
def strPop (s : String) : String :=
  String.mk s.data.dropLast

/-- Rust `str::ends_with('\n')`. -/
def endsWithNL (s : String) : Bool :=
  s.data.getLast? == some '\n'

/-- The non-JSON output assembled by `handle_project_list`
(src/lib.rs:288-296): the header line, the rendered tree, and the trailing
newline removed. -/
def textListOutput (root_repo : String) (nodes : List ProjectTreeNode) : String :=
  let out := ". (" ++ root_repo ++ ")\n" ++ format_project_tree nodes ""
  if endsWithNL out then strPop out else out

/-- The JSON branch of `handle_project_list` (src/lib.rs:277-287):
serialize the `ProjectListOutput`, turning a serializer failure into an
error result. -/
def jsonListResult (env : Env) (root_repo : String) (nodes : List ProjectTreeNode) :
    CommandResult :=
  match env.toPretty { path := ".", repo := root_repo, projects := nodes } with
  | .ok j => .Message j
  | .error e => .Error ("Failed to serialize JSON: " ++ e)

/-- Embeds `handle_project_list` (src/lib.rs:266-297). -/
def handle_project_list (cwd : String) (options : ExecuteOptions) (env : Env) :
    CommandResult :=
  let max_depth := if options.recursive then options.depth else some 0
  match env.walk cwd max_depth with
  | .error e => .Error e
  | .ok tree =>
      let root_repo := (env.gitRemote cwd).getD ""
      let project_nodes := tree.map to_project_tree_node
      if options.json_output then
        jsonListResult env root_repo project_nodes
      else
        .Message (textListOutput root_repo project_nodes)

/-- The `all_missing` list assembled by `execute_command_recursive`
(src/lib.rs:194-221): missing projects of the root manifest (when present and
parseable) followed, per provided project, by the missing projects of its
nested manifest with names prefixed by the project path. -/
def all_missing_of (provided : List String) (cwd : String) (env : Env) :
    List (String × String) :=
  let rootMissing :=
    if env.pathExists (joinPath cwd ".meta") then
      match parse_meta_projects (env.readFile (joinPath cwd ".meta")) with
      | .ok projects => find_missing_projects projects env cwd
      | .error _ => []
    else []
  let nestedMissing := provided.flatMap (fun project_path =>
    let project_dir := joinPath cwd project_path
    if env.pathExists (joinPath project_dir ".meta") then
      match parse_meta_projects (env.readFile (joinPath project_dir ".meta")) with
      | .ok projects =>
          (find_missing_projects projects env project_dir).map
            (fun p => (project_path ++ "/" ++ p.1, p.2))
      | .error _ => []
    else [])
  rootMissing ++ nestedMissing

/-- Embeds `execute_command_recursive` (src/lib.rs:188-259). -/
def execute_command_recursive (command : String) (_dry_run : Bool)
    (provided : List String) (cwd : String) (env : Env) : CommandResult :=
  let all_missing := all_missing_of provided cwd env
  if command == "project check" then
    if all_missing.isEmpty then
      .Message "All projects are cloned and present."
    else
      .Message (toString all_missing.length ++ " project(s) missing")
  else if command == "project sync" || command == "project update" then
    if all_missing.isEmpty then
      .Message "All projects are cloned and present. Nothing to do."
    else
      .Plan (all_missing.map (buildClone cwd)) (some false)
  else
    .Error ("Unknown command: " ++ command)

/-- Embeds `execute_command` (src/lib.rs:101-182). -/
def execute_command (command : String) (args : List String)
    (options : ExecuteOptions) (provided_projects : List String)
    (cwd : String) (env : Env) : CommandResult :=
  if command == "project list" || command == "project ls" then
    let json_from_args := args.any (fun a => a == "--json")
    let effective_options :=
      if json_from_args && !options.json_output then
        { options with json_output := true }
      else options
    handle_project_list cwd effective_options env
  else if !provided_projects.isEmpty then
    execute_command_recursive command options.dry_run provided_projects cwd env
  else
    let meta_path := joinPath cwd ".meta"
    if !env.pathExists meta_path then
      .Error ("No .meta file found in " ++ cwd)
    else
      match parse_meta_projects (env.readFile meta_path) with
      | .error e => .Error ("Failed to parse .meta: " ++ metaErrMsg e)
      | .ok projects =>
          let missing := find_missing_projects projects env cwd
          if command == "project check" then
            if missing.isEmpty then
              .Message "All projects are cloned and present."
            else
              .Message (toString missing.length ++ " project(s) missing")
          else if command == "project sync" || command == "project update" then
            if missing.isEmpty then
              .Message "All projects are cloned and present. Nothing to do."
            else
              .Plan (missing.map (buildClone cwd)) (some false)
          else
            .Error ("Unknown command: " ++ command)

/-- Modelled from the claim wording (C9): the rendered tree as a list of
lines, depth-first, one line per node; every sibling except the last gets the
branch glyph and the last gets the terminal glyph, and a child level's prefix
extends the parent's prefix by the vertical-bar continuation glyph when the
parent was not the last sibling and by spaces when it was. -/
def specTreeLines : List ProjectTreeNode → String → List String
  | [], _ => []
  | .mk name path _repo tags _im projects :: rest, pfx =>
      let is_last := rest.isEmpty
      let glyph := if is_last then "└── " else "├── "
      let tags_str := if tags.isEmpty then "" else " [" ++ String.intercalate ", " tags ++ "]"
      let child_pfx := if is_last then pfx ++ "    " else pfx ++ "│   "
      (pfx ++ glyph ++ name ++ " (" ++ path ++ ")" ++ tags_str)
        :: (specTreeLines projects child_pfx ++ specTreeLines rest pfx)

/-- Concatenation of lines, each terminated by a newline. -/
def linesConcat : List String → String
  | [] => ""
  | s :: rest => s ++ "\n" ++ linesConcat rest

/-- Lines joined with a newline separator (no trailing newline). -/
def joinLines : List String → String
  | [] => ""
  | [s] => s
  | s :: s' :: rest => s ++ "\n" ++ joinLines (s' :: rest)

theorem linesConcat_append (a b : List String) :
    linesConcat (a ++ b) = linesConcat a ++ linesConcat b := by
  induction a with
  | nil => simp [linesConcat]
  | cons s t ih => simp [linesConcat, ih, String.append_assoc]

theorem format_project_tree_eq_specTreeLines (nodes : List ProjectTreeNode) (pfx : String) :
    format_project_tree nodes pfx = linesConcat (specTreeLines nodes pfx) := by
  induction nodes, pfx using format_project_tree.induct with
  | case1 pfx => simp [format_project_tree, specTreeLines, linesConcat]
  | case2 name path _repo tags _im projects rest pfx islast ihp ihr =>
      simp only [dite_eq_ite] at ihp
      have he : islast = rest.isEmpty := rfl
      rw [he] at ihp
      simp only [format_project_tree, specTreeLines, linesConcat, linesConcat_append]
      by_cases hp : projects.isEmpty
      · rw [if_pos hp]
        rw [List.isEmpty_iff.mp hp] at ihp ⊢
        simp [specTreeLines, linesConcat, ihr, String.append_assoc]
      · rw [if_neg hp]
        simp [ihp, ihr, String.append_assoc]

theorem linesConcat_data (s : String) (rest : List String) :
    (linesConcat (s :: rest)).data = s.data ++ '\n' :: (linesConcat rest).data := by
  simp [linesConcat, String.data_append]

theorem linesConcat_getLast (ls : List String) (h : ls ≠ []) :
    (linesConcat ls).data.getLast? = some '\n' := by
  induction ls with
  | nil => exact absurd rfl h
  | cons s rest ih =>
      rw [linesConcat_data]
      cases rest with
      | nil => simp [linesConcat]
      | cons s' rest' =>
          rw [show s.data ++ '\n' :: (linesConcat (s' :: rest')).data
                = (s.data ++ ['\n']) ++ (linesConcat (s' :: rest')).data by simp]
          rw [List.getLast?_append, ih (by simp)]
          simp

theorem strPop_linesConcat (ls : List String) (h : ls ≠ []) :
    strPop (linesConcat ls) = joinLines ls := by
  induction ls with
  | nil => exact absurd rfl h
  | cons s rest ih =>
      cases rest with
      | nil =>
          apply String.ext
          simp [strPop, linesConcat, joinLines, String.data_append]
      | cons s' rest' =>
          apply String.ext
          rw [strPop, linesConcat_data]
          have hne : (linesConcat (s' :: rest')).data ≠ [] := by
            intro hnil
            have := linesConcat_getLast (s' :: rest') (by simp)
            rw [hnil] at this
            simp at this
          rw [show s.data ++ '\n' :: (linesConcat (s' :: rest')).data
                = (s.data ++ ['\n']) ++ (linesConcat (s' :: rest')).data by simp]
          rw [List.dropLast_append_of_ne_nil _ hne]
          have ihd : (linesConcat (s' :: rest')).data.dropLast = (joinLines (s' :: rest')).data := by
            have := ih (by simp)
            rw [strPop] at this
            exact congrArg String.data this
          rw [ihd]
          simp [joinLines, String.data_append]

/-- C9: for every resolved tree, the non-JSON list output is the header line
`. (<root-remote-url-or-empty>)` followed by the depth-first rendered tree
lines, each sibling list using the branch glyph for all but the last element
and the terminal glyph for the last, with a child level's prefix extending
the parent's by the vertical-bar continuation glyph when the parent was not
the last sibling and by spaces when it was (`specTreeLines` states exactly
this, and the lines are joined by single newlines). -/
theorem c9_list_text_rendering (root_repo : String) (nodes : List ProjectTreeNode) :
    textListOutput root_repo nodes
      = joinLines ((". (" ++ root_repo ++ ")") :: specTreeLines nodes "") := by
  have hsplit : ". (" ++ root_repo ++ ")\n" ++ format_project_tree nodes ""
      = linesConcat ((". (" ++ root_repo ++ ")") :: specTreeLines nodes "") := by
    rw [format_project_tree_eq_specTreeLines]
    rw [show (")\n" : String) = ")" ++ "\n" from rfl]
    simp [linesConcat, String.append_assoc]
  have hne : ((". (" ++ root_repo ++ ")") :: specTreeLines nodes "") ≠ [] := by simp
  have hend : endsWithNL (linesConcat ((". (" ++ root_repo ++ ")") :: specTreeLines nodes ""))
      = true := by
    simp [endsWithNL, linesConcat_getLast _ hne]
  simp only [textListOutput]
  rw [hsplit, if_pos hend, strPop_linesConcat _ hne]

/-- C8: the manifest parser fails with the io error exactly on unreadable
files, fails with a non-io (format) error exactly when the text is not valid
JSON or the decoded document's `projects` key is absent or not an object,
and succeeds on every other input. -/
theorem c8_parse_error_partition (r : FileRead) :
    (parse_meta_projects r = .error .ioErr ↔ r = .unreadable)
    ∧ ((∃ e, parse_meta_projects r = .error e ∧ e ≠ .ioErr)
        ↔ (r = .badJson
            ∨ ∃ j, r = .doc j ∧ (j.index "projects").asObject = none))
    ∧ ((∃ m, parse_meta_projects r = .ok m)
        ↔ (∃ j kvs, r = .doc j ∧ (j.index "projects").asObject = some kvs)) := by
  cases r with
  | unreadable => simp [parse_meta_projects]
  | badJson => simp [parse_meta_projects]
  | doc j =>
      cases hob : (j.index "projects").asObject with
      | none =>
          refine ⟨by simp [parse_meta_projects, hob], ?_, by simp [parse_meta_projects, hob]⟩
          simp only [parse_meta_projects, hob]
          constructor
          · intro _; exact Or.inr ⟨j, rfl, hob⟩
          · intro _; exact ⟨.noProjectsKey, rfl, by simp⟩
      | some kvs =>
          refine ⟨by simp [parse_meta_projects, hob], ?_, ?_⟩
          · simp only [parse_meta_projects, hob]
            constructor
            · rintro ⟨e, he, -⟩; simp at he
            · rintro (h | ⟨j', hj', hob'⟩)
              · simp at h
              · cases FileRead.doc.inj hj'
                rw [hob] at hob'
                simp at hob'
          · simp only [parse_meta_projects, hob]
            exact ⟨fun _ => ⟨j, kvs, rfl, hob⟩, fun _ => ⟨buildProjects kvs, rfl⟩⟩

/-- Modelled from the claim wording (C2/C4): the declared projects whose
manifest value is a plain string, paired with that string as repo URL, in
manifest order. -/
def declaredWithUrl (kvs : List (String × Json)) : List (String × String) :=
  kvs.filterMap (fun p => (Json.asStr p.2).map (fun s => (p.1, s)))

/-- Modelled from the claim wording (C4): the declared projects the parser
gives no repo URL (their manifest value is not a plain string). -/
def declaredWithoutUrl (kvs : List (String × Json)) : List (String × Json) :=
  kvs.filter (fun p => !(Json.asStr p.2).isSome)

/-- Modelled from the claim wording (C4): declared projects with a URL whose
directory under the base directory exists. -/
def presentProjects (env : Env) (base : String) (kvs : List (String × Json)) :
    List (String × String) :=
  (declaredWithUrl kvs).filter (fun p => env.isDir (joinPath base p.1))

/-- Modelled from the claim wording (C4): declared projects with a URL whose
directory under the base directory is absent. -/
def absentProjects (env : Env) (base : String) (kvs : List (String × Json)) :
    List (String × String) :=
  (declaredWithUrl kvs).filter (fun p => !(env.isDir (joinPath base p.1)))

theorem buildProjects_go (kvs : List (String × Json)) (acc : List (String × String))
    (hdisj : ∀ k ∈ acc.map Prod.fst, k ∉ kvs.map Prod.fst)
    (hnd : (kvs.map Prod.fst).Nodup) :
    kvs.foldl
        (fun m p =>
          match p.2.asStr with
          | some url => hashInsert m p.1 url
          | none => m)
        acc
      = acc ++ declaredWithUrl kvs := by
  induction kvs generalizing acc with
  | nil => simp [declaredWithUrl]
  | cons hd tl ih =>
      obtain ⟨k, v⟩ := hd
      simp only [List.foldl_cons]
      have hndtl : (tl.map Prod.fst).Nodup := by
        simp only [List.map_cons, List.nodup_cons] at hnd
        exact hnd.2
      have hknotl : k ∉ tl.map Prod.fst := by
        simp only [List.map_cons, List.nodup_cons] at hnd
        exact hnd.1
      cases hv : v.asStr with
      | none =>
          rw [show (match (none : Option String) with
                | some url => hashInsert acc k url
                | none => acc) = acc from rfl]
          rw [ih acc ?_ hndtl]
          · simp [declaredWithUrl, List.filterMap_cons, hv]
          · intro key hkey hmem
            exact hdisj key hkey (by simp [hmem])
      | some s =>
          have hknotacc : k ∉ acc.map Prod.fst := by
            intro hk
            exact hdisj k hk (by simp)
          have hins : hashInsert acc k s = acc ++ [(k, s)] := by
            rw [hashInsert, if_neg]
            intro hany
            rw [List.any_eq_true] at hany
            obtain ⟨p, hp, hpk⟩ := hany
            rw [beq_iff_eq] at hpk
            exact hknotacc (hpk ▸ List.mem_map_of_mem Prod.fst hp)
          rw [show (match (some s : Option String) with
                | some url => hashInsert acc k url
                | none => acc) = hashInsert acc k s from rfl]
          rw [hins, ih (acc ++ [(k, s)]) ?_ hndtl]
          · simp [declaredWithUrl, List.filterMap_cons, hv]
          · intro key hkey hmem
            simp only [List.map_append, List.mem_append, List.map_cons, List.map_nil,
              List.mem_singleton] at hkey
            rcases hkey with hkey | hkey
            · exact hdisj key hkey (by simp [hmem])
            · exact hknotl (hkey ▸ hmem)

theorem buildProjects_eq_declaredWithUrl (kvs : List (String × Json))
    (hnd : (kvs.map Prod.fst).Nodup) :
    buildProjects kvs = declaredWithUrl kvs := by
  have h := buildProjects_go kvs [] (by simp) hnd
  simpa [buildProjects] using h

theorem declaredWithUrl_map_fst (kvs : List (String × Json)) :
    (declaredWithUrl kvs).map Prod.fst
      = (kvs.filter (fun p => (Json.asStr p.2).isSome)).map Prod.fst := by
  induction kvs with
  | nil => rfl
  | cons hd tl ih =>
      simp only [declaredWithUrl, List.filterMap_cons, List.filter_cons] at *
      cases h : hd.2.asStr <;> simp [h, ih]

/-- C2 counterexample: an entry whose manifest value is a structured object
with a `repo` field (and `tags`) is not accepted by `parse_meta_projects`;
the parse succeeds but the entry is dropped, so the parser does not expose
the object's `repo` URL as the claim states. -/
theorem c2_object_value_not_accepted :
    parse_meta_projects (.doc (.obj [("projects",
        .obj [("alpha", .obj [("repo", .str "https://x/a.git"),
          ("tags", .arr [.str "backend"])])])]))
      = .ok []
    ∧ (Except.ok ([] : List (String × String)) : Except MetaError (List (String × String)))
        ≠ .ok [("alpha", "https://x/a.git")] := by
  exact ⟨rfl, by simp⟩

/-- C2 as amended: for every entry of the manifest's `projects` mapping the
parser accepts a plain string value, interpreted as the repo URL; an entry
whose value has any other shape — including a structured object carrying
`repo` and `tags` — is skipped without making the whole parse fail. -/
theorem c2_amended_parser_shapes (kvs : List (String × Json))
    (hnd : (kvs.map Prod.fst).Nodup) :
    parse_meta_projects (.doc (.obj [("projects", .obj kvs)]))
      = .ok (declaredWithUrl kvs) := by
  have hidx : (Json.obj [("projects", Json.obj kvs)]).index "projects" = Json.obj kvs := by
    simp [Json.index]
  simp [parse_meta_projects, hidx, Json.asObject, buildProjects_eq_declaredWithUrl kvs hnd]

/-- Witness for C2: a mapping with a string entry, a null entry and an
object entry parses to exactly the string entry. -/
theorem c2_amended_parser_shapes_witness :
    (([("a", Json.str "u"), ("b", Json.null), ("c", Json.obj [("repo", Json.str "v")])]
        |>.map Prod.fst) |>.Nodup)
    ∧ parse_meta_projects (.doc (.obj [("projects",
        .obj [("a", .str "u"), ("b", .null), ("c", .obj [("repo", .str "v")])])]))
      = .ok [("a", "u")] := by
  refine ⟨by decide, ?_⟩
  have h := c2_amended_parser_shapes
    [("a", .str "u"), ("b", .null), ("c", .obj [("repo", .str "v")])] (by decide)
  simpa [declaredWithUrl] using h

/-- C4: reconciliation partitions the declared projects: the code's missing
set is (a permutation of) the declared-with-URL projects whose directory is
absent; the spec-side present set is the declared-with-URL projects whose
directory exists; present and missing are disjoint and together exhaust the
declared-with-URL projects; the projects without a URL are excluded from
both sets; and with-URL plus without-URL keys exhaust the declared keys. -/
theorem c4_reconcile_partition (kvs : List (String × Json)) (env : Env) (base : String)
    (hho : env.HashOk) (hnd : (kvs.map Prod.fst).Nodup) :
    (find_missing_projects (buildProjects kvs) env base).Perm (absentProjects env base kvs)
    ∧ (presentProjects env base kvs ++ absentProjects env base kvs).Perm (declaredWithUrl kvs)
    ∧ (∀ p, p ∈ presentProjects env base kvs
        → p ∉ find_missing_projects (buildProjects kvs) env base)
    ∧ ((declaredWithUrl kvs).map Prod.fst ++ (declaredWithoutUrl kvs).map Prod.fst).Perm
        (kvs.map Prod.fst)
    ∧ (∀ k, k ∈ (declaredWithoutUrl kvs).map Prod.fst
        → k ∉ (presentProjects env base kvs).map Prod.fst
          ∧ k ∉ (find_missing_projects (buildProjects kvs) env base).map Prod.fst)
    ∧ (∀ p, p ∈ presentProjects env base kvs
        ↔ p ∈ declaredWithUrl kvs ∧ env.isDir (joinPath base p.1) = true)
    ∧ (∀ p, p ∈ find_missing_projects (buildProjects kvs) env base
        ↔ p ∈ declaredWithUrl kvs ∧ env.isDir (joinPath base p.1) = false) := by
  have hbp : buildProjects kvs = declaredWithUrl kvs :=
    buildProjects_eq_declaredWithUrl kvs hnd
  have h1 : (find_missing_projects (buildProjects kvs) env base).Perm
      (absentProjects env base kvs) := by
    rw [find_missing_projects, hbp]
    exact (hho (declaredWithUrl kvs)).filter _
  have h2 : (presentProjects env base kvs ++ absentProjects env base kvs).Perm
      (declaredWithUrl kvs) :=
    List.filter_append_perm _ (declaredWithUrl kvs)
  have hmissmem : ∀ p, p ∈ find_missing_projects (buildProjects kvs) env base
      ↔ p ∈ declaredWithUrl kvs ∧ env.isDir (joinPath base p.1) = false := by
    intro p
    rw [h1.mem_iff, absentProjects, List.mem_filter]
    simp
  have hpresmem : ∀ p, p ∈ presentProjects env base kvs
      ↔ p ∈ declaredWithUrl kvs ∧ env.isDir (joinPath base p.1) = true := by
    intro p
    rw [presentProjects, List.mem_filter]
  have h3 : ∀ p, p ∈ presentProjects env base kvs
      → p ∉ find_missing_projects (buildProjects kvs) env base := by
    intro p hp hm
    have ht := ((hpresmem p).mp hp).2
    have hf := ((hmissmem p).mp hm).2
    rw [ht] at hf
    cases hf
  have h4 : ((declaredWithUrl kvs).map Prod.fst ++ (declaredWithoutUrl kvs).map Prod.fst).Perm
      (kvs.map Prod.fst) := by
    rw [declaredWithUrl_map_fst, declaredWithoutUrl, ← List.map_append]
    exact (List.filter_append_perm _ kvs).map Prod.fst
  have hurlkey : ∀ k, k ∈ (declaredWithUrl kvs).map Prod.fst
      → k ∉ (declaredWithoutUrl kvs).map Prod.fst := by
    intro k hk hk'
    rw [declaredWithUrl_map_fst] at hk
    obtain ⟨p, hpmem, hpk⟩ := List.mem_map.mp hk
    obtain ⟨q, hqmem, hqk⟩ := List.mem_map.mp hk'
    rw [List.mem_filter] at hpmem
    rw [declaredWithoutUrl, List.mem_filter] at hqmem
    have hpq : p = q :=
      List.inj_on_of_nodup_map hnd hpmem.1 hqmem.1 (by rw [hpk, hqk])
    rw [hpq] at hpmem
    rw [hpmem.2] at hqmem
    simp at hqmem
  have h5 : ∀ k, k ∈ (declaredWithoutUrl kvs).map Prod.fst
      → k ∉ (presentProjects env base kvs).map Prod.fst
        ∧ k ∉ (find_missing_projects (buildProjects kvs) env base).map Prod.fst := by
    intro k hk
    constructor
    · intro hk'
      obtain ⟨p, hpmem, hpk⟩ := List.mem_map.mp hk'
      have hmem := ((hpresmem p).mp hpmem).1
      exact hurlkey k (hpk ▸ List.mem_map_of_mem Prod.fst hmem) hk
    · intro hk'
      obtain ⟨p, hpmem, hpk⟩ := List.mem_map.mp hk'
      have hmem := ((hmissmem p).mp hpmem).1
      exact hurlkey k (hpk ▸ List.mem_map_of_mem Prod.fst hmem) hk
  exact ⟨h1, h2, h3, h4, h5, hpresmem, hmissmem⟩

/-- C5: with a non-empty missing set, sync (and its alias update) returns an
execution plan with exactly one planned command per missing project, whose
working directory is `"."` (the workspace root — the clone destination
appears inside the command string), whose command string contains the
project's repo URL, and whose parallel flag is `some false`; the same holds
on the recursive path for its aggregated missing set. -/
theorem c5_sync_plan_shape (cmd : String) (args : List String) (opts : ExecuteOptions)
    (provided : List String) (cwd : String) (env : Env)
    (entries : List (String × String))
    (hcmd : cmd = "project sync" ∨ cmd = "project update")
    (hmeta : env.pathExists (joinPath cwd ".meta") = true)
    (hparse : parse_meta_projects (env.readFile (joinPath cwd ".meta")) = .ok entries) :
    (find_missing_projects entries env cwd ≠ [] →
      execute_command cmd args opts [] cwd env
        = .Plan ((find_missing_projects entries env cwd).map (buildClone cwd)) (some false))
    ∧ ((find_missing_projects entries env cwd).map (buildClone cwd)).length
        = (find_missing_projects entries env cwd).length
    ∧ (∀ p ∈ find_missing_projects entries env cwd,
        (buildClone cwd p).dir = "."
        ∧ ∃ s t, (buildClone cwd p).cmd = s ++ p.2 ++ t)
    ∧ (provided ≠ [] → all_missing_of provided cwd env ≠ [] →
        execute_command cmd args opts provided cwd env
          = .Plan ((all_missing_of provided cwd env).map (buildClone cwd)) (some false)) := by
  refine ⟨?_, List.length_map _ _, ?_, ?_⟩
  · intro hne
    have hm : (find_missing_projects entries env cwd).isEmpty = false :=
      List.isEmpty_eq_false.mpr hne
    rcases hcmd with rfl | rfl <;>
      simp [execute_command, hmeta, hparse, hm]
  · intro p _
    refine ⟨rfl, "git clone ", " " ++ joinPath cwd p.1, ?_⟩
    simp [buildClone, String.append_assoc]
  · intro hp hne
    have hpm : provided.isEmpty = false := List.isEmpty_eq_false.mpr hp
    have hm : (all_missing_of provided cwd env).isEmpty = false :=
      List.isEmpty_eq_false.mpr hne
    rcases hcmd with rfl | rfl <;>
      simp [execute_command, execute_command_recursive, hpm, hm]

/-- C6: the check operation answers with exactly one of the two messages:
the all-present message when the missing set is empty and the
`<N> project(s) missing` count otherwise, with `N` the number of missing
projects; an empty projects mapping always yields the all-present message;
and the recursive path behaves the same on its aggregated missing set. -/
theorem c6_check_messages (args : List String) (opts : ExecuteOptions)
    (cwd : String) (env : Env) (entries : List (String × String))
    (d : Bool) (provided : List String)
    (hho : env.HashOk)
    (hmeta : env.pathExists (joinPath cwd ".meta") = true)
    (hparse : parse_meta_projects (env.readFile (joinPath cwd ".meta")) = .ok entries) :
    (execute_command "project check" args opts [] cwd env
      = .Message (if (find_missing_projects entries env cwd).isEmpty
          then "All projects are cloned and present."
          else toString (find_missing_projects entries env cwd).length
              ++ " project(s) missing"))
    ∧ (entries = [] →
        execute_command "project check" args opts [] cwd env
          = .Message "All projects are cloned and present.")
    ∧ (execute_command_recursive "project check" d provided cwd env
      = .Message (if (all_missing_of provided cwd env).isEmpty
          then "All projects are cloned and present."
          else toString (all_missing_of provided cwd env).length
              ++ " project(s) missing")) := by
  refine ⟨?_, ?_, ?_⟩
  · by_cases hm : (find_missing_projects entries env cwd).isEmpty <;>
      simp [execute_command, hmeta, hparse, hm]
  · intro hent
    have hiter : env.hashIter [] = [] := (hho []).eq_nil
    have hm : find_missing_projects entries env cwd = [] := by
      rw [hent, find_missing_projects, hiter]
      rfl
    simp [execute_command, hmeta, hparse, hm]
  · by_cases hm : (all_missing_of provided cwd env).isEmpty <;>
      simp [execute_command_recursive, hm]

/-- C7: when the missing set is empty, sync (and update) returns the
explicit nothing-to-do message and never a plan — not even a plan with zero
commands — so `main.rs` never calls `output_execution_plan`; likewise on the
recursive path. -/
theorem c7_sync_nothing_to_do (cmd : String) (args : List String)
    (opts : ExecuteOptions) (cwd : String) (env : Env)
    (entries : List (String × String)) (d : Bool) (provided : List String)
    (hcmd : cmd = "project sync" ∨ cmd = "project update")
    (hmeta : env.pathExists (joinPath cwd ".meta") = true)
    (hparse : parse_meta_projects (env.readFile (joinPath cwd ".meta")) = .ok entries)
    (hempty : find_missing_projects entries env cwd = []) :
    (execute_command cmd args opts [] cwd env
      = .Message "All projects are cloned and present. Nothing to do.")
    ∧ (∀ cs b, execute_command cmd args opts [] cwd env ≠ .Plan cs b)
    ∧ (all_missing_of provided cwd env = [] →
        execute_command_recursive cmd d provided cwd env
          = .Message "All projects are cloned and present. Nothing to do."
        ∧ ∀ cs b, execute_command_recursive cmd d provided cwd env ≠ .Plan cs b) := by
  have hm : (find_missing_projects entries env cwd).isEmpty = true :=
    List.isEmpty_iff.mpr hempty
  have hmain : execute_command cmd args opts [] cwd env
      = .Message "All projects are cloned and present. Nothing to do." := by
    rcases hcmd with rfl | rfl <;> simp [execute_command, hmeta, hparse, hm]
  refine ⟨hmain, ?_, ?_⟩
  · intro cs b
    rw [hmain]
    intro h
    cases h
  · intro hrec
    have hrm : (all_missing_of provided cwd env).isEmpty = true :=
      List.isEmpty_iff.mpr hrec
    have hrmain : execute_command_recursive cmd d provided cwd env
        = .Message "All projects are cloned and present. Nothing to do." := by
      rcases hcmd with rfl | rfl <;> simp [execute_command_recursive, hrm]
    refine ⟨hrmain, ?_⟩
    intro cs b
    rw [hrmain]
    intro h
    cases h

/-- C10: for the list operation, the literal `--json` among the trailing
arguments promotes the `json_output` flag, so structured output is produced
exactly when the caller's flag is set or the argument is present; given a
successful walk, the JSON branch is taken precisely when the effective flag
is true. -/
theorem c10_list_json_flag (cmd : String) (args : List String) (opts : ExecuteOptions)
    (provided : List String) (cwd : String) (env : Env)
    (hcmd : cmd = "project list" ∨ cmd = "project ls") :
    execute_command cmd args opts provided cwd env
      = handle_project_list cwd
          { opts with json_output := opts.json_output || args.any (fun a => a == "--json") } env
    ∧ (∀ (o : ExecuteOptions) (tree : List MetaTreeNode),
        env.walk cwd (if o.recursive then o.depth else some 0) = .ok tree →
        handle_project_list cwd o env
          = if o.json_output
            then jsonListResult env ((env.gitRemote cwd).getD "")
                (tree.map to_project_tree_node)
            else .Message (textListOutput ((env.gitRemote cwd).getD "")
                (tree.map to_project_tree_node))) := by
  constructor
  · have heff : (if args.any (fun a => a == "--json") && !opts.json_output
        then { opts with json_output := true }
        else opts)
        = { opts with json_output := opts.json_output || args.any (fun a => a == "--json") } := by
      obtain ⟨f1, f2, f3, f4, f5⟩ := opts
      by_cases hj : args.any (fun a => a == "--json") <;>
        cases f2 <;> simp [hj]
    rcases hcmd with rfl | rfl <;>
      · simp only [execute_command]
        rw [if_pos (by decide), heff]
  · intro o tree hwalk
    by_cases ho : o.json_output <;>
      simp [handle_project_list, hwalk, ho]

/-- Concrete environment in which nothing exists on disk at all. -/
def envNone : Env where
  pathExists := fun _ => false
  readFile := fun _ => .unreadable
  isDir := fun _ => false
  hashIter := fun l => l
  walk := fun _ _ => .ok []
  gitRemote := fun _ => none
  toPretty := fun _ => .ok ""

/-- Concrete environment: the manifest at `/w/.meta` declares `a` before `b`
in document order, no project directory exists, and the hash map happens to
iterate its two entries in reversed order — a legal iteration order for
`std::collections::HashMap`, whose order is arbitrary and seed-dependent. -/
def envTwoRev : Env where
  pathExists := fun p => p == "/w/.meta"
  readFile := fun p =>
    if p == "/w/.meta" then
      .doc (.obj [("projects", .obj [("a", .str "u1"), ("b", .str "u2")])])
    else .unreadable
  isDir := fun _ => false
  hashIter := fun l => l.reverse
  walk := fun _ _ => .ok []
  gitRemote := fun _ => none
  toPretty := fun _ => .ok ""

/-- C1 counterexample: with the manifest declaring `a` (repo `u1`) before
`b` (repo `u2`), both missing, and a legal reversed hash-map iteration, the
sync plan's first command clones `b`, not the first manifest-order missing
project `a`: the i-th missing project in manifest order does not produce the
i-th planned command, and the plan order depends on the hash seed rather
than only on the input. -/
theorem c1_plan_order_not_preserved :
    parse_meta_projects (envTwoRev.readFile "/w/.meta")
      = .ok [("a", "u1"), ("b", "u2")]
    ∧ (envTwoRev.hashIter [("a", "u1"), ("b", "u2")]).Perm [("a", "u1"), ("b", "u2")]
    ∧ execute_command "project sync" [] {} [] "/w" envTwoRev
      = .Plan [⟨".", "git clone u2 /w/b"⟩, ⟨".", "git clone u1 /w/a"⟩] (some false)
    ∧ PlannedCommand.mk "." "git clone u2 /w/b" ≠ buildClone "/w" ("a", "u1") := by
  exact ⟨rfl, by decide, by decide, by decide⟩

/-- C1 as amended: the sync plan contains exactly one planned command per
missing project — it is a permutation of the manifest-order missing list's
clone commands, with matching length — but the i-th missing project need not
produce the i-th planned command and the order is not deterministic across
runs, because the parsed projects are stored in a `std::collections::HashMap`
with arbitrary iteration order. -/
theorem c1_amended_plan_permutation (cmd : String) (args : List String)
    (opts : ExecuteOptions) (cwd : String) (env : Env)
    (entries : List (String × String))
    (hho : env.HashOk)
    (hcmd : cmd = "project sync" ∨ cmd = "project update")
    (hmeta : env.pathExists (joinPath cwd ".meta") = true)
    (hparse : parse_meta_projects (env.readFile (joinPath cwd ".meta")) = .ok entries)
    (hne : find_missing_projects entries env cwd ≠ []) :
    ∃ cmds,
      execute_command cmd args opts [] cwd env = .Plan cmds (some false)
      ∧ cmds.Perm
          ((entries.filter (fun p => !(env.isDir (joinPath cwd p.1)))).map (buildClone cwd))
      ∧ cmds.length
          = (entries.filter (fun p => !(env.isDir (joinPath cwd p.1)))).length := by
  have hperm : (find_missing_projects entries env cwd).Perm
      (entries.filter (fun p => !(env.isDir (joinPath cwd p.1)))) := by
    rw [find_missing_projects]
    exact (hho entries).filter _
  refine ⟨(find_missing_projects entries env cwd).map (buildClone cwd), ?_, ?_, ?_⟩
  · have hm : (find_missing_projects entries env cwd).isEmpty = false :=
      List.isEmpty_eq_false.mpr hne
    rcases hcmd with rfl | rfl <;>
      simp [execute_command, hmeta, hparse, hm]
  · exact hperm.map (buildClone cwd)
  · rw [List.length_map]
    exact hperm.length_eq

/-- C3 counterexample: with no manifest anywhere and a non-empty provided
project list (the recursive mode), check and sync both return ordinary
messages, not the no-manifest error the claim requires for every command and
option set. -/
theorem c3_recursive_tolerates_missing_manifest :
    envNone.pathExists (joinPath "/w" ".meta") = false
    ∧ execute_command "project check" [] {} ["p"] "/w" envNone
      = .Message "All projects are cloned and present."
    ∧ execute_command "project sync" [] {} ["p"] "/w" envNone
      = .Message "All projects are cloned and present. Nothing to do." := by
  exact ⟨rfl, by decide, by decide⟩

/-- C3 as amended: on the non-recursive path (no provided projects), a
missing root manifest makes check and sync fail with the no-manifest error;
on the recursive path (non-empty provided projects) a missing manifest is
tolerated: with no manifests anywhere, check reports that all projects are
present. -/
theorem c3_amended_no_manifest_error (command : String) (args : List String)
    (opts : ExecuteOptions) (cwd : String) (env : Env) (provided : List String)
    (hl1 : command ≠ "project list") (hl2 : command ≠ "project ls")
    (hnone : ∀ p, env.pathExists p = false) :
    execute_command command args opts [] cwd env
      = .Error ("No .meta file found in " ++ cwd)
    ∧ (provided ≠ [] →
        execute_command "project check" args opts provided cwd env
          = .Message "All projects are cloned and present.") := by
  constructor
  · have hc1 : (command == "project list") = false := beq_eq_false_iff_ne.mpr hl1
    have hc2 : (command == "project ls") = false := beq_eq_false_iff_ne.mpr hl2
    simp [execute_command, hc1, hc2, hnone]
  · intro hp
    have hpm : provided.isEmpty = false := List.isEmpty_eq_false.mpr hp
    have hall : all_missing_of provided cwd env = [] := by
      simp [all_missing_of, hnone]
    simp [execute_command, execute_command_recursive, hpm, hall, hnone]

/-- Declared projects used by the C4 witness: one missing with URL, one
present with URL, one without URL. -/
def testKvs : List (String × Json) :=
  [("alpha", .str "https://x/a.git"), ("gamma", .str "https://x/g.git"), ("beta", .null)]

/-- Concrete environment for the C4 witness: manifest at `/w/.meta` holding
`testKvs`; only the directory `/w/gamma` exists. -/
def testEnv : Env where
  pathExists := fun p => p == "/w/.meta"
  readFile := fun p =>
    if p == "/w/.meta" then .doc (.obj [("projects", .obj testKvs)]) else .unreadable
  isDir := fun p => p == "/w/gamma"
  hashIter := fun l => l
  walk := fun _ _ => .ok []
  gitRemote := fun _ => none
  toPretty := fun _ => .ok ""

/-- Witness for C4 at `testKvs`, `testEnv`, base `/w`. -/
theorem c4_reconcile_partition_witness :
    testEnv.HashOk
    ∧ (testKvs.map Prod.fst).Nodup
    ∧ ((find_missing_projects (buildProjects testKvs) testEnv "/w").Perm
          (absentProjects testEnv "/w" testKvs)
      ∧ (presentProjects testEnv "/w" testKvs ++ absentProjects testEnv "/w" testKvs).Perm
          (declaredWithUrl testKvs)
      ∧ (∀ p, p ∈ presentProjects testEnv "/w" testKvs
          → p ∉ find_missing_projects (buildProjects testKvs) testEnv "/w")
      ∧ ((declaredWithUrl testKvs).map Prod.fst
            ++ (declaredWithoutUrl testKvs).map Prod.fst).Perm (testKvs.map Prod.fst)
      ∧ (∀ k, k ∈ (declaredWithoutUrl testKvs).map Prod.fst
          → k ∉ (presentProjects testEnv "/w" testKvs).map Prod.fst
            ∧ k ∉ (find_missing_projects (buildProjects testKvs) testEnv "/w").map Prod.fst)
      ∧ (∀ p, p ∈ presentProjects testEnv "/w" testKvs
          ↔ p ∈ declaredWithUrl testKvs ∧ testEnv.isDir (joinPath "/w" p.1) = true)
      ∧ (∀ p, p ∈ find_missing_projects (buildProjects testKvs) testEnv "/w"
          ↔ p ∈ declaredWithUrl testKvs ∧ testEnv.isDir (joinPath "/w" p.1) = false)) :=
  ⟨fun l => List.Perm.refl l, by decide,
    c4_reconcile_partition testKvs testEnv "/w" (fun l => List.Perm.refl l) (by decide)⟩

/-- Witness for C1 as amended at the reversed-iteration environment. -/
theorem c1_amended_plan_permutation_witness :
    envTwoRev.HashOk
    ∧ envTwoRev.pathExists (joinPath "/w" ".meta") = true
    ∧ parse_meta_projects (envTwoRev.readFile (joinPath "/w" ".meta"))
        = .ok [("a", "u1"), ("b", "u2")]
    ∧ find_missing_projects [("a", "u1"), ("b", "u2")] envTwoRev "/w" ≠ []
    ∧ (∃ cmds,
        execute_command "project sync" [] {} [] "/w" envTwoRev = .Plan cmds (some false)
        ∧ cmds.Perm
            (([("a", "u1"), ("b", "u2")].filter
                (fun p => !(envTwoRev.isDir (joinPath "/w" p.1)))).map (buildClone "/w"))
        ∧ cmds.length
            = ([("a", "u1"), ("b", "u2")].filter
                (fun p => !(envTwoRev.isDir (joinPath "/w" p.1)))).length) :=
  ⟨fun l => List.reverse_perm l, rfl, rfl, by decide,
    c1_amended_plan_permutation "project sync" [] {} "/w" envTwoRev
      [("a", "u1"), ("b", "u2")] (fun l => List.reverse_perm l) (Or.inl rfl)
      rfl rfl (by decide)⟩

/-- Witness for C3 as amended: the command `project check`, the environment
with no files, an empty and a non-empty provided list. -/
theorem c3_amended_no_manifest_error_witness :
    ("project check" ≠ "project list")
    ∧ ("project check" ≠ "project ls")
    ∧ (∀ p, envNone.pathExists p = false)
    ∧ (execute_command "project check" [] {} [] "/w" envNone
        = .Error ("No .meta file found in " ++ "/w")
      ∧ ((["p"] : List String) ≠ [] →
          execute_command "project check" [] {} ["p"] "/w" envNone
            = .Message "All projects are cloned and present.")) :=
  ⟨by decide, by decide, fun _ => rfl,
    c3_amended_no_manifest_error "project check" [] {} "/w" envNone ["p"]
      (by decide) (by decide) (fun _ => rfl)⟩

/-- Witness for C5 at the two-project environment with provided list `["p"]`. -/
theorem c5_sync_plan_shape_witness :
    ("project sync" = "project sync" ∨ ("project sync" : String) = "project update")
    ∧ envTwoRev.pathExists (joinPath "/w" ".meta") = true
    ∧ parse_meta_projects (envTwoRev.readFile (joinPath "/w" ".meta"))
        = .ok [("a", "u1"), ("b", "u2")]
    ∧ ((find_missing_projects [("a", "u1"), ("b", "u2")] envTwoRev "/w" ≠ [] →
        execute_command "project sync" [] {} [] "/w" envTwoRev
          = .Plan ((find_missing_projects [("a", "u1"), ("b", "u2")] envTwoRev "/w").map
              (buildClone "/w")) (some false))
      ∧ ((find_missing_projects [("a", "u1"), ("b", "u2")] envTwoRev "/w").map
            (buildClone "/w")).length
          = (find_missing_projects [("a", "u1"), ("b", "u2")] envTwoRev "/w").length
      ∧ (∀ p ∈ find_missing_projects [("a", "u1"), ("b", "u2")] envTwoRev "/w",
          (buildClone "/w" p).dir = "."
          ∧ ∃ s t, (buildClone "/w" p).cmd = s ++ p.2 ++ t)
      ∧ ((["p"] : List String) ≠ [] → all_missing_of ["p"] "/w" envTwoRev ≠ [] →
          execute_command "project sync" [] {} ["p"] "/w" envTwoRev
            = .Plan ((all_missing_of ["p"] "/w" envTwoRev).map (buildClone "/w"))
                (some false))) :=
  ⟨Or.inl rfl, rfl, rfl,
    c5_sync_plan_shape "project sync" [] {} ["p"] "/w" envTwoRev
      [("a", "u1"), ("b", "u2")] (Or.inl rfl) rfl rfl⟩

/-- Witness for C6 at the two-project environment. -/
theorem c6_check_messages_witness :
    envTwoRev.HashOk
    ∧ envTwoRev.pathExists (joinPath "/w" ".meta") = true
    ∧ parse_meta_projects (envTwoRev.readFile (joinPath "/w" ".meta"))
        = .ok [("a", "u1"), ("b", "u2")]
    ∧ ((execute_command "project check" [] {} [] "/w" envTwoRev
        = .Message (if (find_missing_projects [("a", "u1"), ("b", "u2")] envTwoRev "/w").isEmpty
            then "All projects are cloned and present."
            else toString (find_missing_projects [("a", "u1"), ("b", "u2")] envTwoRev "/w").length
                ++ " project(s) missing"))
      ∧ (([("a", "u1"), ("b", "u2")] : List (String × String)) = [] →
          execute_command "project check" [] {} [] "/w" envTwoRev
            = .Message "All projects are cloned and present.")
      ∧ (execute_command_recursive "project check" false ["p"] "/w" envTwoRev
        = .Message (if (all_missing_of ["p"] "/w" envTwoRev).isEmpty
            then "All projects are cloned and present."
            else toString (all_missing_of ["p"] "/w" envTwoRev).length
                ++ " project(s) missing"))) :=
  ⟨fun l => List.reverse_perm l, rfl, rfl,
    c6_check_messages [] {} "/w" envTwoRev [("a", "u1"), ("b", "u2")] false ["p"]
      (fun l => List.reverse_perm l) rfl rfl⟩

/-- Concrete environment for the C7 witness: the manifest at `/w/.meta`
declares an empty projects mapping. -/
def envEmptyProj : Env :=
  { envNone with
    pathExists := fun p => p == "/w/.meta"
    readFile := fun p =>
      if p == "/w/.meta" then .doc (.obj [("projects", .obj [])]) else .unreadable }

/-- Witness for C7 at the empty-manifest environment. -/
theorem c7_sync_nothing_to_do_witness :
    ("project sync" = "project sync" ∨ ("project sync" : String) = "project update")
    ∧ envEmptyProj.pathExists (joinPath "/w" ".meta") = true
    ∧ parse_meta_projects (envEmptyProj.readFile (joinPath "/w" ".meta")) = .ok []
    ∧ find_missing_projects [] envEmptyProj "/w" = []
    ∧ ((execute_command "project sync" [] {} [] "/w" envEmptyProj
        = .Message "All projects are cloned and present. Nothing to do.")
      ∧ (∀ cs b, execute_command "project sync" [] {} [] "/w" envEmptyProj ≠ .Plan cs b)
      ∧ (all_missing_of ["p"] "/w" envEmptyProj = [] →
          execute_command_recursive "project sync" false ["p"] "/w" envEmptyProj
            = .Message "All projects are cloned and present. Nothing to do."
          ∧ ∀ cs b, execute_command_recursive "project sync" false ["p"] "/w" envEmptyProj
              ≠ .Plan cs b)) :=
  ⟨Or.inl rfl, rfl, rfl, by decide,
    c7_sync_nothing_to_do "project sync" [] {} "/w" envEmptyProj [] false ["p"]
      (Or.inl rfl) rfl rfl (by decide)⟩

/-- Witness for C10 at the empty-walk environment with `--json` among the
arguments and the flag off. -/
theorem c10_list_json_flag_witness :
    (("project list" : String) = "project list" ∨ ("project list" : String) = "project ls")
    ∧ (execute_command "project list" ["--json"] {} [] "/w" envNone
        = handle_project_list "/w"
            { ({} : ExecuteOptions) with
                json_output := ({} : ExecuteOptions).json_output
                  || ["--json"].any (fun a => a == "--json") } envNone
      ∧ (∀ (o : ExecuteOptions) (tree : List MetaTreeNode),
          envNone.walk "/w" (if o.recursive then o.depth else some 0) = .ok tree →
          handle_project_list "/w" o envNone
            = if o.json_output
              then jsonListResult envNone ((envNone.gitRemote "/w").getD "")
                  (tree.map to_project_tree_node)
              else .Message (textListOutput ((envNone.gitRemote "/w").getD "")
                  (tree.map to_project_tree_node)))) :=
  ⟨Or.inl rfl,
    c10_list_json_flag "project list" ["--json"] {} [] "/w" envNone (Or.inl rfl)⟩
